import Mathlib

/-!
Verification of `src/augment_ds.py` (Image-Dataset-Augmentation), a
deterministic batch image-augmentation pipeline.

The imaging-library primitives (PIL mirror/flip/rotate/enhance/blur,
new/convert/getchannel/paste, encode) are external collaborators; we model
them as fixed deterministic functions over an abstract raster: the color
mode and pixel dimensions are tracked concretely, the pixel content is a
syntactic term (`PixData`) recording which primitive produced it from what.
Filesystem effects (mkdir, file writes, diagnostics) are modelled as an
event trace; fallible steps (copy2, open/decode, per-variant write,
relative_to, mkdir) carry failure injection flags on each source file, and
an uncaught Python exception is an `Except.error` result.
-/

namespace AugmentDS

/-- Abstract pixel content: a syntactic record of which imaging-library
primitive produced the raster from what.  `src id` is the decoded content
of a source file. -/
inductive PixData where
  | src (id : Nat)
  | solid (c : Nat × Nat × Nat)
  | convertedTo (m : String) (d : PixData)
  | channel (c : String) (d : PixData)
  | pasted (img mask onto : PixData)
  | mirrorLR (d : PixData)
  | flipTB (d : PixData)
  | rotatedCCW (deg : Nat) (d : PixData)
  | bright (pct : Nat) (d : PixData)
  | contrastScaled (pct : Nat) (d : PixData)
  | sharpScaled (pct : Nat) (d : PixData)
  | blurred (d : PixData)
deriving DecidableEq, Repr

/-- An in-memory PIL image: color mode (e.g. "RGB", "RGBA", "L", "LA"),
pixel dimensions (width, height), and abstract pixel content. -/
structure PImage where
  mode : String
  size : Nat × Nat
  data : PixData
deriving DecidableEq, Repr

/-- `ImageOps.mirror`: mirror across the vertical axis (left-right flip).
Mode and size preserved. -/
def pilMirror (img : PImage) : PImage :=
  { img with data := .mirrorLR img.data }

/-- `ImageOps.flip`: mirror across the horizontal axis (top-bottom flip). -/
def pilFlip (img : PImage) : PImage :=
  { img with data := .flipTB img.data }

/-- `img.rotate(deg, expand=True)`: rotate `deg` degrees counter-clockwise
with the canvas expanded to fit; for 90 or 270 degrees the dimensions
swap. -/
def pilRotateExpand (img : PImage) (deg : Nat) : PImage :=
  { img with
    size := if deg % 180 = 90 then (img.size.2, img.size.1) else img.size,
    data := .rotatedCCW deg img.data }

/-- `ImageEnhance.Brightness(img).enhance(pct/100)`; the factor is kept in
hundredths (150 = factor 1.50). -/
def pilBrightness (img : PImage) (pct : Nat) : PImage :=
  { img with data := .bright pct img.data }

/-- `ImageEnhance.Contrast(img).enhance(pct/100)`. -/
def pilContrast (img : PImage) (pct : Nat) : PImage :=
  { img with data := .contrastScaled pct img.data }

/-- `ImageEnhance.Sharpness(img).enhance(pct/100)`. -/
def pilSharpness (img : PImage) (pct : Nat) : PImage :=
  { img with data := .sharpScaled pct img.data }

/-- `img.filter(ImageFilter.BLUR)`. -/
def pilBlur (img : PImage) : PImage :=
  { img with data := .blurred img.data }

/-- `Image.new(mode, size, color)`. -/
def pilNew (m : String) (sz : Nat × Nat) (c : Nat × Nat × Nat) : PImage :=
  ⟨m, sz, .solid c⟩

/-- `img.convert(mode)`: returns a new image in the given mode. -/
def pilConvert (img : PImage) (m : String) : PImage :=
  { img with mode := m, data := .convertedTo m img.data }

/-- `img.getchannel(c)`: extracts one channel as a single-band "L" image. -/
def pilGetchannel (img : PImage) (c : String) : PImage :=
  { img with mode := "L", data := .channel c img.data }

/-- `base.paste(img, mask=mask)`: composite `img` over `base` through
`mask`; models the mutated `base` as the returned value (the source code
returns `base` after the paste). -/
def pilPaste (base img mask : PImage) : PImage :=
  { base with data := .pasted img.data mask.data base.data }

/-- `convert_rgb(img, background)` from `src/augment_ds.py` lines 14-25:
RGB passes through unchanged; RGBA/LA composites over an opaque
`background` using the alpha channel as paste mask; anything else converts
directly to RGB.  (Being a pure function of a pure model, it cannot mutate
its input.)  The Python default for `background` is (255, 255, 255); the
only call site uses that default, embedded as `whiteBG` below. -/
def convert_rgb (img : PImage) (background : Nat × Nat × Nat) : PImage :=
  let mode := img.mode
  if mode = "RGB" then img
  else if mode = "RGBA" ∨ mode = "LA" then
    let base := pilNew "RGB" img.size background
    let rgb := pilConvert img "RGB"
    let alpha := pilGetchannel img "A"
    pilPaste base rgb alpha
  else pilConvert img "RGB"

/-- The default `background` argument of `convert_rgb`, used at its only
call site in `process_dataset`. -/
def whiteBG : Nat × Nat × Nat := (255, 255, 255)

/-- `recognize_formats` from line 28 (a Python set of extensions; order is
irrelevant, membership is what is used). -/
def recognize_formats : List String :=
  [".bmp", ".jpeg", ".jpg", ".png", ".tif", ".tiff", ".webp"]

/-- Index of the last occurrence of character `c` in a character list
(Python `str.rfind`, as an `Option`). -/
def lastIdx (c : Char) : List Char → Option Nat
  | [] => none
  | x :: xs =>
      match lastIdx c xs with
      | some i => some (i + 1)
      | none => if x = c then some 0 else none

/-- `pathlib.PurePath.suffix` on a file name: the part from the last dot,
provided that dot is neither the first nor the last character; otherwise
empty. -/
def pySuffix (name : String) : String :=
  match lastIdx '.' name.data with
  | some i => if 0 < i ∧ i + 1 < name.data.length then String.mk (name.data.drop i) else ""
  | none => ""

/-- `pathlib.PurePath.stem` on a file name: the file name with `pySuffix`
removed. -/
def pyStem (name : String) : String :=
  match lastIdx '.' name.data with
  | some i => if 0 < i ∧ i + 1 < name.data.length then String.mk (name.data.take i) else name
  | none => name

/-- One filesystem entry discovered by `input_dir.rglob("*")`, together
with its content and the failure-injection flags for the fallible
operations `process_dataset` performs on it.  `rel` is the path relative
to the input root as a component list (the last component is the file
name); `decoded = none` means `Image.open`/`im.load()` raises;
`write_fails_at = some k` means the write of the k-th yielded variant
(0-based) raises. -/
structure SrcFile where
  rel : List String
  is_file : Bool
  raw : Nat
  decoded : Option PImage
  copy_fails : Bool
  rel_fails : Bool
  mkdir_fails : Bool
  write_fails_at : Option Nat
deriving DecidableEq, Repr

/-- `p.name`: the last path component. -/
def fname (f : SrcFile) : String := f.rel.getLastD ""

/-- Python `str.lower()`.  Character-wise ASCII lowercasing; the strings
the source lowercases are file extensions, and only ASCII extensions can
ever match the recognized set, so this is faithful where it is used. -/
def asciiLower (s : String) : String :=
  String.mk (s.data.map Char.toLower)

/-- `true_image(p)` from lines 30-31: a regular file whose lower-cased
extension is recognized. -/
def true_image (f : SrcFile) : Bool :=
  f.is_file && decide (asciiLower (pySuffix (fname f)) ∈ recognize_formats)

/-- `guarantee_rgb_for_jpeg(img, ext)` from lines 33-37. -/
def guarantee_rgb_for_jpeg (img : PImage) (ext : String) : PImage :=
  if (ext = ".jpg" ∨ ext = ".jpeg") ∧ ¬(img.mode = "RGB" ∨ img.mode = "L") then
    pilConvert img "RGB"
  else img

/-- `augmentations(img)` from lines 39-48: the generator's yields, in
order, as a list of (tag, image) pairs; every transform is applied to
`img` itself. -/
def augmentations (img : PImage) : List (String × PImage) :=
  [("flipHorizontal", pilMirror img),
   ("flipVertical", pilFlip img),
   ("rotate90degrees", pilRotateExpand img 90),
   ("rotate270", pilRotateExpand img 270),
   ("bright125", pilBrightness img 150),
   ("contrast125", pilContrast img 150),
   ("sharp150", pilSharpness img 150),
   ("blur", pilBlur img)]

/-- The byte buffer produced by an encode or read back by a byte-for-byte
copy.  `encoded` records the chosen format, the JPEG-only save options
(quality, optimize), and the image that was serialized. -/
inductive OutBytes where
  | encoded (fmt : String) (quality : Option Nat) (optimize : Bool)
      (mode : String) (sz : Nat × Nat) (d : PixData)
  | rawCopy (n : Nat)
deriving DecidableEq, Repr

/-- The extension-to-format table of `save_image` (lines 55-58), default
"PNG". -/
def fmtFor (ext : String) : String :=
  let e := asciiLower ext
  if e = ".jpg" ∨ e = ".jpeg" then "JPEG"
  else if e = ".png" then "PNG"
  else if e = ".bmp" then "BMP"
  else if e = ".tif" ∨ e = ".tiff" then "TIFF"
  else if e = ".webp" then "WEBP"
  else "PNG"

/-- `save_image(img, ext)` from lines 51-63: serialize to bytes in the
format the table assigns to `ext.lower()`; JPEG gets quality=95 and
optimize=True, every other format default options. -/
def save_image (img : PImage) (ext : String) : OutBytes :=
  let fmt := fmtFor ext
  if fmt = "JPEG" then .encoded fmt (some 95) true img.mode img.size img.data
  else .encoded fmt none false img.mode img.size img.data

/-- Observable filesystem/console effects of a run, in order: recursive
directory creation, a file write (path as component list relative to the
output root), and a printed diagnostic line. -/
inductive Event where
  | mkdirp (d : List String)
  | fwrite (p : List String) (b : OutBytes)
  | errLine (msg : String)
deriving DecidableEq, Repr

/-- Mutable run state of `process_dataset`: the effect trace and the two
counters `num_originals`, `num_augmented`. -/
structure RunState where
  events : List Event
  num_originals : Nat
  num_augmented : Nat
deriving DecidableEq, Repr

/-- Diagnostic printed when the original-copy step fails (line 85). -/
def copyErrMsg (f : SrcFile) : String :=
  "[ERROR] Copy failed for " ++ fname f

/-- Diagnostic printed when the augmentation block of one file raises
(line 100). -/
def skipMsg (f : SrcFile) : String :=
  "[ERROR] Skipping " ++ fname f

/-- The variant-writing loop body (lines 94-98): walk the yielded
(tag, image) pairs from position `i`; if the injected failure index is
hit, stop with `false` (the exception aborts the loop); otherwise apply
JPEG safety, encode, emit the write event, and count it.  Returns the
events emitted, the number of counter increments, and whether the loop
ran to completion. -/
def writeAugs (stem ext : String) (dest : List String) (failAt : Option Nat) :
    List (String × PImage) → Nat → List Event × Nat × Bool
  | [], _ => ([], 0, true)
  | (tag, aug) :: rest, i =>
      if failAt = some i then ([], 0, false)
      else
        let aug2 := guarantee_rgb_for_jpeg aug ext
        let out_name := stem ++ "__" ++ tag ++ ext
        let r := writeAugs stem ext dest failAt rest (i + 1)
        (.fwrite (dest ++ [out_name]) (save_image aug2 ext) :: r.1, r.2.1 + 1, r.2.2)

/-- The per-file body of the `for src in images` loop (lines 74-100).
`relative_to` and `mkdir` are outside every `try`, so their injected
failures return `Except.error` (the exception propagates out of
`process_dataset`); the copy step and the augmentation block have their
own handlers and always continue. -/
def process_file (copy_originals : Bool) (f : SrcFile) (st : RunState) :
    Except String RunState :=
  if f.rel_fails then .error ("relative_to raised for " ++ fname f)
  else
    let dest_dir := f.rel.dropLast
    if f.mkdir_fails then .error ("mkdir raised for " ++ fname f)
    else
      let st1 : RunState := { st with events := st.events ++ [.mkdirp dest_dir] }
      let st2 : RunState :=
        if copy_originals then
          if f.copy_fails then
            { st1 with events := st1.events ++ [.errLine (copyErrMsg f)] }
          else
            { st1 with
              events := st1.events ++ [.fwrite (dest_dir ++ [fname f]) (.rawCopy f.raw)],
              num_originals := st1.num_originals + 1 }
        else st1
      match f.decoded with
      | none => .ok { st2 with events := st2.events ++ [.errLine (skipMsg f)] }
      | some im =>
          let ext := asciiLower (pySuffix (fname f))
          let base := convert_rgb im whiteBG
          let r := writeAugs (pyStem (fname f)) ext dest_dir f.write_fails_at
                     (augmentations base) 0
          let st3 : RunState :=
            { st2 with events := st2.events ++ r.1,
                       num_augmented := st2.num_augmented + r.2.1 }
          .ok (if r.2.2 then st3
               else { st3 with events := st3.events ++ [.errLine (skipMsg f)] })

/-- Fold `process_file` over the discovered files; an uncaught exception
aborts the whole run. -/
def runFiles (copy_originals : Bool) : List SrcFile → RunState → Except String RunState
  | [], st => .ok st
  | f :: fs, st =>
      match process_file copy_originals f st with
      | .error e => .error e
      | .ok st' => runFiles copy_originals fs st'

/-- Diagnostic printed when discovery finds no images (line 69). -/
def noImagesMsg : String :=
  "No images found with recognized extensions"

/-- `process_dataset(input_dir, output_dir, copy_originals)` from lines
66-104: filter discovery by `true_image`; empty discovery prints a
diagnostic and returns code 1; otherwise process every file and return
code 0.  The result is the final run state paired with the return code,
or an uncaught exception. -/
def process_dataset (input_files : List SrcFile) (copy_originals : Bool) :
    Except String (RunState × Nat) :=
  let images := input_files.filter (fun f => true_image f)
  if images.isEmpty then
    .ok ({ events := [.errLine noImagesMsg], num_originals := 0, num_augmented := 0 }, 1)
  else
    match runFiles copy_originals images ⟨[], 0, 0⟩ with
    | .error e => .error e
    | .ok st => .ok (st, 0)

/-! ### Derived denotations

Closed-form descriptions of the per-file effects of `process_file` and of
the whole run, proved equal to the operational definitions below. -/

/-- `dest_dir` for a file: `(output_dir / rel).parent`, in components
relative to the output root. -/
def destOf (f : SrcFile) : List String := f.rel.dropLast

/-- `ext = src.suffix.lower()` (line 91). -/
def extOf (f : SrcFile) : String := asciiLower (pySuffix (fname f))

/-- The write event of one variant: JPEG safety, then encode, written to
`dest / (stem ++ "__" ++ tag ++ ext)`. -/
def wEv (stem ext : String) (dest : List String) (pr : String × PImage) : Event :=
  .fwrite (dest ++ [stem ++ "__" ++ pr.1 ++ ext])
    (save_image (guarantee_rgb_for_jpeg pr.2 ext) ext)

/-- Effects of the original-copy step (lines 80-85). -/
def copyEvents (c : Bool) (f : SrcFile) : List Event :=
  if c then
    if f.copy_fails then [.errLine (copyErrMsg f)]
    else [.fwrite (destOf f ++ [fname f]) (.rawCopy f.raw)]
  else []

/-- The variant loop's result for a successfully decoded image. -/
def augResult (f : SrcFile) (im : PImage) : List Event × Nat × Bool :=
  writeAugs (pyStem (fname f)) (extOf f) (destOf f) f.write_fails_at
    (augmentations (convert_rgb im whiteBG)) 0

/-- Effects of the augmentation block (lines 88-100). -/
def augEvents (f : SrcFile) : List Event :=
  match f.decoded with
  | none => [.errLine (skipMsg f)]
  | some im =>
      let r := augResult f im
      r.1 ++ (if r.2.2 then [] else [.errLine (skipMsg f)])

/-- Increment of `num_originals` contributed by one file. -/
def fileOrigCount (c : Bool) (f : SrcFile) : Nat :=
  if c && !f.copy_fails then 1 else 0

/-- Increment of `num_augmented` contributed by one file. -/
def fileAugCount (f : SrcFile) : Nat :=
  match f.decoded with
  | none => 0
  | some im => (augResult f im).2.1

/-- All effects of `process_file` on one file in a run that it does not
abort: the mkdir, then the copy step, then the augmentation block. -/
def fileEvents (c : Bool) (f : SrcFile) : List Event :=
  .mkdirp (destOf f) :: (copyEvents c f ++ augEvents f)

/-- Concatenated effects of a list of files. -/
def filesEvents (c : Bool) (fs : List SrcFile) : List Event :=
  (fs.map (fileEvents c)).flatten

/-- Total originals copied over a list of files. -/
def filesOrig (c : Bool) (fs : List SrcFile) : Nat :=
  (fs.map (fileOrigCount c)).sum

/-- Total augmented files written over a list of files. -/
def filesAug (fs : List SrcFile) : Nat :=
  (fs.map fileAugCount).sum

/-- The discovery filter (line 67). -/
def imagesOf (input : List SrcFile) : List SrcFile :=
  input.filter (fun f => true_image f)

/-- The final run state of a run that no uncaught exception aborts. -/
def finalState (input : List SrcFile) (c : Bool) : RunState :=
  if (imagesOf input).isEmpty then ⟨[.errLine noImagesMsg], 0, 0⟩
  else ⟨filesEvents c (imagesOf input), filesOrig c (imagesOf input),
        filesAug (imagesOf input)⟩

/-- The return code of a run that no uncaught exception aborts. -/
def retCode (input : List SrcFile) : Nat :=
  if (imagesOf input).isEmpty then 1 else 0

/-- The event trace of a run (empty if an uncaught exception aborted it). -/
def runEvents (input : List SrcFile) (c : Bool) : List Event :=
  match process_dataset input c with
  | .error _ => []
  | .ok (st, _) => st.events

/-! ### Characterization lemmas -/

theorem writeAugs_none (stem ext : String) (dest : List String)
    (pairs : List (String × PImage)) (i : Nat) :
    writeAugs stem ext dest none pairs i =
      (pairs.map (wEv stem ext dest), pairs.length, true) := by
  induction pairs generalizing i with
  | nil => simp [writeAugs]
  | cons p rest ih =>
      cases p with
      | mk tag aug => simp [writeAugs, ih, wEv]

theorem writeAugs_hit (stem ext : String) (dest : List String)
    (pairs : List (String × PImage)) (i k : Nat) (hk : k < pairs.length) :
    writeAugs stem ext dest (some (i + k)) pairs i =
      ((pairs.map (wEv stem ext dest)).take k, k, false) := by
  induction pairs generalizing i k with
  | nil => simp at hk
  | cons p rest ih =>
      cases p with
      | mk tag aug =>
        cases k with
        | zero => simp [writeAugs]
        | succ k' =>
            have hne : ¬ (some (i + (k' + 1)) = some i) := by
              intro h
              simp at h
            have harith : i + (k' + 1) = (i + 1) + k' := by omega
            have hk' : k' < rest.length := by
              simpa using Nat.lt_of_succ_lt_succ hk
            simp only [writeAugs, if_neg hne, List.map_cons, List.take_succ_cons]
            rw [harith, ih (i + 1) k' hk']
            simp [wEv]

/-- Whatever the injected failure position, the variant loop writes some
prefix of the variant sequence, and counts exactly what it writes. -/
theorem writeAugs_shape (stem ext : String) (dest : List String)
    (failAt : Option Nat) (pairs : List (String × PImage)) (i : Nat) :
    ∃ n, n ≤ pairs.length ∧
      (writeAugs stem ext dest failAt pairs i).1 =
        (pairs.map (wEv stem ext dest)).take n ∧
      (writeAugs stem ext dest failAt pairs i).2.1 = n := by
  induction pairs generalizing i with
  | nil => exact ⟨0, by simp [writeAugs]⟩
  | cons p rest ih =>
      cases p with
      | mk tag aug =>
        by_cases h : failAt = some i
        · exact ⟨0, by simp [writeAugs, h]⟩
        · obtain ⟨n, hn, he, hc⟩ := ih (i + 1)
          refine ⟨n + 1, by simpa using Nat.succ_le_succ hn, ?_, ?_⟩
          · simp only [writeAugs, if_neg h, List.map_cons, List.take_succ_cons]
            rw [he, wEv]
          · simp only [writeAugs, if_neg h]
            rw [hc]

theorem process_file_eq (c : Bool) (f : SrcFile) (st : RunState)
    (h1 : f.rel_fails = false) (h2 : f.mkdir_fails = false) :
    process_file c f st =
      .ok ⟨st.events ++ fileEvents c f,
           st.num_originals + fileOrigCount c f,
           st.num_augmented + fileAugCount f⟩ := by
  simp only [process_file, h1, h2, Bool.false_eq_true, if_false,
    fileEvents, copyEvents, augEvents, fileOrigCount, fileAugCount,
    destOf, extOf]
  cases c with
  | false =>
      cases hd : f.decoded with
      | none => simp
      | some im =>
          rcases hr : augResult f im with ⟨evs, n, ok⟩
          have hr2 : writeAugs (pyStem (fname f)) (asciiLower (pySuffix (fname f)))
              f.rel.dropLast f.write_fails_at (augmentations (convert_rgb im whiteBG)) 0 =
              (evs, n, ok) := by
            simpa [augResult, destOf, extOf] using hr
          cases ok <;> simp [hr, hr2, List.append_assoc]
  | true =>
      cases hc : f.copy_fails with
      | false =>
          cases hd : f.decoded with
          | none => simp
          | some im =>
              rcases hr : augResult f im with ⟨evs, n, ok⟩
              have hr2 : writeAugs (pyStem (fname f)) (asciiLower (pySuffix (fname f)))
                  f.rel.dropLast f.write_fails_at (augmentations (convert_rgb im whiteBG)) 0 =
                  (evs, n, ok) := by
                simpa [augResult, destOf, extOf] using hr
              cases ok <;>
                simp [hr, hr2, List.append_assoc, Nat.add_assoc, Nat.add_comm]
      | true =>
          cases hd : f.decoded with
          | none => simp
          | some im =>
              rcases hr : augResult f im with ⟨evs, n, ok⟩
              have hr2 : writeAugs (pyStem (fname f)) (asciiLower (pySuffix (fname f)))
                  f.rel.dropLast f.write_fails_at (augmentations (convert_rgb im whiteBG)) 0 =
                  (evs, n, ok) := by
                simpa [augResult, destOf, extOf] using hr
              cases ok <;> simp [hr, hr2, List.append_assoc]

theorem runFiles_eq (c : Bool) (fs : List SrcFile) (st : RunState)
    (h : ∀ f ∈ fs, f.rel_fails = false ∧ f.mkdir_fails = false) :
    runFiles c fs st =
      .ok ⟨st.events ++ filesEvents c fs,
           st.num_originals + filesOrig c fs,
           st.num_augmented + filesAug fs⟩ := by
  induction fs generalizing st with
  | nil => simp [runFiles, filesEvents, filesOrig, filesAug]
  | cons f fs ih =>
      obtain ⟨h1, h2⟩ := h f (List.mem_cons_self f fs)
      simp only [runFiles, process_file_eq c f st h1 h2]
      rw [ih _ (fun g hg => h g (List.mem_cons_of_mem f hg))]
      simp [filesEvents, filesOrig, filesAug, List.append_assoc, Nat.add_assoc]

theorem runFiles_append (c : Bool) (as bs : List SrcFile) (st : RunState) :
    runFiles c (as ++ bs) st =
      match runFiles c as st with
      | .error e => .error e
      | .ok st' => runFiles c bs st' := by
  induction as generalizing st with
  | nil => simp [runFiles]
  | cons a as ih =>
      simp only [List.cons_append, runFiles]
      cases process_file c a st with
      | error e => rfl
      | ok st' => exact ih st'

theorem process_dataset_eq (input : List SrcFile) (c : Bool)
    (h : ∀ f ∈ imagesOf input, f.rel_fails = false ∧ f.mkdir_fails = false) :
    process_dataset input c = .ok (finalState input c, retCode input) := by
  simp only [process_dataset, finalState, retCode, imagesOf] at h ⊢
  by_cases he : (List.filter (fun f => true_image f) input).isEmpty = true
  · simp [he]
  · simp only [he, if_false]
    rw [runFiles_eq c _ _ h]
    simp

/-! ### Trace well-formedness: directories exist before writes into them -/

/-- `goodTrace created evs` checks that every file write in `evs` targets a
directory that an earlier `mkdirp` created (or that was in `created` to
begin with). -/
def goodTrace : List (List String) → List Event → Bool
  | _, [] => true
  | created, .mkdirp d :: rest => goodTrace (d :: created) rest
  | created, .fwrite p _ :: rest =>
      decide (p.dropLast ∈ created) && goodTrace created rest
  | created, .errLine _ :: rest => goodTrace created rest

theorem goodTrace_append (c : List (List String)) (a b : List Event)
    (h1 : goodTrace c a = true) (h2 : ∀ c', goodTrace c' b = true) :
    goodTrace c (a ++ b) = true := by
  induction a generalizing c with
  | nil => exact h2 c
  | cons e rest ih =>
      cases e with
      | mkdirp d =>
          simp only [goodTrace, List.cons_append] at h1 ⊢
          exact ih (d :: c) h1
      | fwrite p bts =>
          simp only [goodTrace, List.cons_append, Bool.and_eq_true] at h1 ⊢
          exact ⟨h1.1, ih c h1.2⟩
      | errLine m =>
          simp only [goodTrace, List.cons_append] at h1 ⊢
          exact ih c h1

theorem writesInto_good (d : List String) (evs : List Event) :
    ∀ created, d ∈ created →
      (∀ p b, Event.fwrite p b ∈ evs → p.dropLast = d) →
      goodTrace created evs = true := by
  induction evs with
  | nil => intro created _ _; rfl
  | cons e rest ih =>
      intro created hd h
      cases e with
      | mkdirp d' =>
          simp only [goodTrace]
          exact ih (d' :: created) (List.mem_cons_of_mem d' hd)
            (fun p b hm => h p b (List.mem_cons_of_mem _ hm))
      | fwrite p bts =>
          have hp : p.dropLast = d := h p bts (List.mem_cons_self _ _)
          simp only [goodTrace, Bool.and_eq_true, decide_eq_true_eq]
          exact ⟨hp ▸ hd, ih created hd (fun p b hm => h p b (List.mem_cons_of_mem _ hm))⟩
      | errLine m =>
          simp only [goodTrace]
          exact ih created hd (fun p b hm => h p b (List.mem_cons_of_mem _ hm))

theorem copyEvents_writes (c : Bool) (f : SrcFile) :
    ∀ p b, Event.fwrite p b ∈ copyEvents c f → p.dropLast = destOf f := by
  intro p b hm
  unfold copyEvents at hm
  cases c with
  | false => simp at hm
  | true =>
      cases hc : f.copy_fails with
      | true => simp [hc] at hm
      | false =>
          simp only [hc, if_true, if_false, Bool.false_eq_true, List.mem_singleton] at hm
          cases hm
          exact List.dropLast_concat ..

theorem augResult_shape (f : SrcFile) (im : PImage) :
    ∃ n, n ≤ 8 ∧
      (augResult f im).1 =
        ((augmentations (convert_rgb im whiteBG)).map
          (wEv (pyStem (fname f)) (extOf f) (destOf f))).take n ∧
      (augResult f im).2.1 = n := by
  obtain ⟨n, hn, he, hc⟩ := writeAugs_shape (pyStem (fname f)) (extOf f) (destOf f)
    f.write_fails_at (augmentations (convert_rgb im whiteBG)) 0
  exact ⟨n, by simpa [augmentations] using hn, he, hc⟩

theorem augEvents_writes (f : SrcFile) :
    ∀ p b, Event.fwrite p b ∈ augEvents f → p.dropLast = destOf f := by
  intro p b hm
  unfold augEvents at hm
  cases hd : f.decoded with
  | none => simp [hd] at hm
  | some im =>
      simp only [hd, List.mem_append] at hm
      rcases hm with hm | hm
      · obtain ⟨n, _, he, _⟩ := augResult_shape f im
        rw [he] at hm
        have hm' := List.mem_of_mem_take hm
        obtain ⟨pr, _, hpr⟩ := List.mem_map.mp hm'
        rw [wEv] at hpr
        cases hpr
        exact List.dropLast_concat ..
      · rcases hr : (augResult f im).2.2 <;> simp [hr] at hm


theorem goodTrace_fileEvents (cr : List (List String)) (c : Bool) (f : SrcFile) :
    goodTrace cr (fileEvents c f) = true := by
  simp only [fileEvents, goodTrace]
  refine writesInto_good (destOf f) _ _ (List.mem_cons_self _ _) ?_
  intro p b hm
  rcases List.mem_append.mp hm with hm | hm
  · exact copyEvents_writes c f p b hm
  · exact augEvents_writes f p b hm

theorem goodTrace_filesEvents (c : Bool) (fs : List SrcFile) :
    ∀ cr, goodTrace cr (filesEvents c fs) = true := by
  induction fs with
  | nil => intro cr; rfl
  | cons f fs ih =>
      intro cr
      have : filesEvents c (f :: fs) = fileEvents c f ++ filesEvents c fs := by
        simp [filesEvents]
      rw [this]
      exact goodTrace_append cr _ _ (goodTrace_fileEvents cr c f) ih

/-! ### Miscellaneous helpers for the claims -/

/-- The image a one-input transform was applied to, if the content is the
result of a one-input transform. -/
def parentData : PixData → Option PixData
  | .convertedTo _ d => some d
  | .channel _ d => some d
  | .mirrorLR d => some d
  | .flipTB d => some d
  | .rotatedCCW _ d => some d
  | .bright _ d => some d
  | .contrastScaled _ d => some d
  | .sharpScaled _ d => some d
  | .blurred d => some d
  | .pasted _ _ _ => none
  | .src _ => none
  | .solid _ => none

/-- Recognizes a variant write (an encoded image, as opposed to the
byte-for-byte original copy). -/
def isAugWrite : Event → Bool
  | .fwrite _ (.encoded _ _ _ _ _ _) => true
  | _ => false

theorem convert_rgb_mode (img : PImage) (bg : Nat × Nat × Nat) :
    (convert_rgb img bg).mode = "RGB" := by
  unfold convert_rgb
  by_cases h1 : img.mode = "RGB"
  · simp [h1]
  · by_cases h2 : img.mode = "RGBA" ∨ img.mode = "LA" <;>
      simp [h1, h2, pilPaste, pilNew, pilConvert]

theorem augmentations_mode (b : PImage) :
    ∀ pr ∈ augmentations b, pr.2.mode = b.mode := by
  intro pr hm
  simp only [augmentations, List.mem_cons, List.not_mem_nil, or_false] at hm
  rcases hm with rfl | rfl | rfl | rfl | rfl | rfl | rfl | rfl <;> rfl

theorem lastIdx_append_some (c : Char) (xs ys : List Char) (j : Nat)
    (h : lastIdx c ys = some j) : lastIdx c (xs ++ ys) = some (xs.length + j) := by
  induction xs with
  | cons y ys ih =>
      simp only [List.cons_append, lastIdx, List.append_eq, ih, List.length_cons,
        Option.some.injEq]
      omega
  | nil => simpa using h

theorem pySuffix_eq_some (nm : String) (i : Nat)
    (h : lastIdx '.' nm.data = some i) :
    pySuffix nm =
      if 0 < i ∧ i + 1 < nm.data.length then String.mk (nm.data.drop i) else "" := by
  unfold pySuffix
  rw [h]

theorem pySuffix_append_t (s t : String)
    (ht : match lastIdx '.' t.data with
          | some j => 0 < j ∧ j + 1 < t.data.length
          | none => False) :
    pySuffix (s ++ t) = pySuffix t := by
  rcases hj : lastIdx '.' t.data with _ | j
  · rw [hj] at ht
    exact absurd ht (by simp)
  · rw [hj] at ht
    obtain ⟨h0, h1⟩ := ht
    have hl : lastIdx '.' (s ++ t).data = some (s.data.length + j) := by
      rw [String.data_append]
      exact lastIdx_append_some _ _ _ _ hj
    have c0 : 0 < s.data.length + j := by omega
    have c1 : s.data.length + j + 1 < (s ++ t).data.length := by
      rw [String.data_append, List.length_append]
      omega
    rw [pySuffix_eq_some _ _ hl, pySuffix_eq_some _ _ hj,
      if_pos ⟨c0, c1⟩, if_pos ⟨h0, h1⟩]
    congr 1
    rw [String.data_append]
    rw [List.drop_append]

theorem pySuffix_variant (s tag ext : String)
    (h : (match lastIdx '.' ("__" ++ tag ++ ext).data with
          | some j => decide (0 < j) &&
              decide (j + 1 < ("__" ++ tag ++ ext).data.length)
          | none => false) = true) :
    pySuffix (s ++ "__" ++ tag ++ ext) = pySuffix ("__" ++ tag ++ ext) := by
  have ha : s ++ "__" ++ tag ++ ext = s ++ ("__" ++ tag ++ ext) := by
    simp [String.append_assoc]
  rw [ha]
  apply pySuffix_append_t
  rcases hj : lastIdx '.' ("__" ++ tag ++ ext).data with _ | j
  · rw [hj] at h
    simp at h
  · rw [hj] at h
    simp only [Bool.and_eq_true, decide_eq_true_eq] at h
    exact h

/-! ### Test fixtures -/

/-- An opaque RGB photo at `photos/a.PNG` (upper-case extension), no
injected failures. -/
def testPNG : SrcFile :=
  ⟨["photos", "a.PNG"], true, 7, some ⟨"RGB", (2, 3), .src 0⟩, false, false, false, none⟩

/-- An RGBA image with a JPEG-family extension. -/
def testRGBA : SrcFile :=
  ⟨["b.jpg"], true, 3, some ⟨"RGBA", (4, 5), .src 1⟩, false, false, false, none⟩

/-- A corrupt file: opening/decoding raises. -/
def testBadDecode : SrcFile :=
  ⟨["c.jpeg"], true, 2, none, false, false, false, none⟩

/-- A file whose original-copy step raises. -/
def testCopyFail : SrcFile :=
  ⟨["d.bmp"], true, 9, some ⟨"L", (1, 1), .src 2⟩, true, false, false, none⟩

/-- A file whose fourth variant write (index 3) raises. -/
def testWriteFail3 : SrcFile :=
  ⟨["e.webp"], true, 4, some ⟨"RGB", (2, 2), .src 3⟩, false, false, false, some 3⟩

/-- A file whose destination-directory `mkdir` raises. -/
def testMkdirFail : SrcFile :=
  ⟨["f.tif"], true, 5, some ⟨"RGB", (2, 2), .src 4⟩, false, false, true, none⟩

/-- A file whose `relative_to` computation raises. -/
def testRelFail : SrcFile :=
  ⟨["g.tiff"], true, 6, some ⟨"RGB", (2, 2), .src 5⟩, false, true, false, none⟩

/-! ### Claim theorems -/

/-- C1: for every base image, `augmentations` produces exactly 8
(name, image) pairs, always in the fixed order flipHorizontal,
flipVertical, rotate90degrees, rotate270, bright125, contrast125,
sharp150, blur; flipHorizontal is the vertical-axis mirror, flipVertical
the horizontal-axis flip, the two rotations are counter-clockwise with
the canvas expanded (dimensions swap), bright125 and contrast125 apply
enhancement factor 1.50 (not 1.25, despite the names), sharp150 applies
factor 1.50, and every variant derives directly from the base image
(`parentData` of each variant is the base's content — none derives from a
previously yielded variant). -/
theorem augmentations_eight_fixed_order_from_base (img : PImage) :
    (augmentations img).length = 8 ∧
    (augmentations img).map Prod.fst =
      ["flipHorizontal", "flipVertical", "rotate90degrees", "rotate270",
       "bright125", "contrast125", "sharp150", "blur"] ∧
    augmentations img =
      [("flipHorizontal", pilMirror img),
       ("flipVertical", pilFlip img),
       ("rotate90degrees", pilRotateExpand img 90),
       ("rotate270", pilRotateExpand img 270),
       ("bright125", pilBrightness img 150),
       ("contrast125", pilContrast img 150),
       ("sharp150", pilSharpness img 150),
       ("blur", pilBlur img)] ∧
    (pilRotateExpand img 90).size = (img.size.2, img.size.1) ∧
    (pilRotateExpand img 270).size = (img.size.2, img.size.1) ∧
    (pilBrightness img 150).data = .bright 150 img.data ∧
    (pilContrast img 150).data = .contrastScaled 150 img.data ∧
    (pilSharpness img 150).data = .sharpScaled 150 img.data ∧
    (augmentations img).map (fun pr => parentData pr.2.data) =
      List.replicate 8 (some img.data) := by
  exact ⟨rfl, rfl, rfl, rfl, rfl, rfl, rfl, rfl, rfl⟩

/-- C4: `convert_rgb` always returns an image in 3-channel mode "RGB"
(the embedding is pure, so the input cannot be mutated); an image already
in mode RGB is returned unchanged (the very same image); RGBA or LA is
composited over the opaque `background` via `Image.new` + `convert` +
`getchannel("A")` + masked paste; any other mode is converted directly to
RGB. -/
theorem convert_rgb_normalizes (img : PImage) (bg : Nat × Nat × Nat) :
    (convert_rgb img bg).mode = "RGB" ∧
    (img.mode = "RGB" → convert_rgb img bg = img) ∧
    ((img.mode = "RGBA" ∨ img.mode = "LA") →
      convert_rgb img bg =
        pilPaste (pilNew "RGB" img.size bg) (pilConvert img "RGB")
          (pilGetchannel img "A") ∧
      (convert_rgb img bg).data =
        .pasted (.convertedTo "RGB" img.data) (.channel "A" img.data) (.solid bg)) ∧
    (img.mode ≠ "RGB" → img.mode ≠ "RGBA" → img.mode ≠ "LA" →
      convert_rgb img bg = pilConvert img "RGB") := by
  refine ⟨convert_rgb_mode img bg, ?_, ?_, ?_⟩
  · intro h
    simp [convert_rgb, h]
  · intro h
    have h1 : ¬ img.mode = "RGB" := by
      rcases h with h | h <;> rw [h] <;> decide
    constructor
    · simp [convert_rgb, h1, h]
    · simp [convert_rgb, h1, h, pilPaste, pilNew, pilConvert, pilGetchannel]
  · intro h1 h2 h3
    have h4 : ¬ (img.mode = "RGBA" ∨ img.mode = "LA") := by
      rintro (h | h) <;> [exact h2 h; exact h3 h]
    simp [convert_rgb, h1, h4]

/-- Witness for the hypotheses of `convert_rgb_normalizes`: a plain RGB
image passes through unchanged, an RGBA image is composited over white,
and a CMYK image is converted directly. -/
theorem convert_rgb_normalizes_witness :
    convert_rgb ⟨"RGB", (2, 3), .src 0⟩ whiteBG = ⟨"RGB", (2, 3), .src 0⟩ ∧
    (convert_rgb ⟨"RGBA", (4, 5), .src 1⟩ whiteBG).data =
      .pasted (.convertedTo "RGB" (.src 1)) (.channel "A" (.src 1))
        (.solid (255, 255, 255)) ∧
    convert_rgb ⟨"CMYK", (1, 1), .src 2⟩ whiteBG =
      pilConvert ⟨"CMYK", (1, 1), .src 2⟩ "RGB" :=
  ⟨(convert_rgb_normalizes ⟨"RGB", (2, 3), .src 0⟩ whiteBG).2.1 rfl,
   ((convert_rgb_normalizes ⟨"RGBA", (4, 5), .src 1⟩ whiteBG).2.2.1 (Or.inl rfl)).2,
   (convert_rgb_normalizes ⟨"CMYK", (1, 1), .src 2⟩ whiteBG).2.2.2
     (by decide) (by decide) (by decide)⟩

/-- C5: `guarantee_rgb_for_jpeg` converts to RGB exactly when the
extension is ".jpg" or ".jpeg" and the mode is neither "RGB" nor "L", and
otherwise returns the image unchanged; consequently, for an RGBA or LA
source, the normalized base is composited over white (255,255,255), every
augmentation variant is already in mode "RGB", so the JPEG-safety step
leaves it unchanged and every JPEG-family encode records a 3-channel RGB
image with no alpha. -/
theorem guarantee_rgb_for_jpeg_exactly (img : PImage) (ext : String) :
    ((ext = ".jpg" ∨ ext = ".jpeg") → img.mode ≠ "RGB" → img.mode ≠ "L" →
      guarantee_rgb_for_jpeg img ext = pilConvert img "RGB" ∧
      (guarantee_rgb_for_jpeg img ext).mode = "RGB") ∧
    (¬((ext = ".jpg" ∨ ext = ".jpeg") ∧ ¬(img.mode = "RGB" ∨ img.mode = "L")) →
      guarantee_rgb_for_jpeg img ext = img) ∧
    ((img.mode = "RGBA" ∨ img.mode = "LA") →
      (convert_rgb img whiteBG).data =
        .pasted (.convertedTo "RGB" img.data) (.channel "A" img.data)
          (.solid (255, 255, 255)) ∧
      ∀ pr ∈ augmentations (convert_rgb img whiteBG),
        pr.2.mode = "RGB" ∧
        ∀ e, (e = ".jpg" ∨ e = ".jpeg") →
          guarantee_rgb_for_jpeg pr.2 e = pr.2 ∧
          save_image (guarantee_rgb_for_jpeg pr.2 e) e =
            .encoded "JPEG" (some 95) true "RGB" pr.2.size pr.2.data) := by
  refine ⟨?_, ?_, ?_⟩
  · intro he h1 h2
    have hc : (ext = ".jpg" ∨ ext = ".jpeg") ∧ ¬(img.mode = "RGB" ∨ img.mode = "L") := by
      exact ⟨he, by rintro (h | h) <;> [exact h1 h; exact h2 h]⟩
    constructor
    · simp [guarantee_rgb_for_jpeg, hc]
    · simp [guarantee_rgb_for_jpeg, hc, pilConvert]
  · intro h
    unfold guarantee_rgb_for_jpeg
    rw [if_neg h]
  · intro h
    have h1 : ¬ img.mode = "RGB" := by
      rcases h with h | h <;> rw [h] <;> decide
    refine ⟨by simp [convert_rgb, h1, h, pilPaste, pilNew, pilConvert, pilGetchannel, whiteBG], ?_⟩
    intro pr hpr
    have hmode : pr.2.mode = "RGB" :=
      (augmentations_mode (convert_rgb img whiteBG) pr hpr).trans (convert_rgb_mode img whiteBG)
    refine ⟨hmode, ?_⟩
    intro e he
    have hid : guarantee_rgb_for_jpeg pr.2 e = pr.2 := by
      have hno : ¬((e = ".jpg" ∨ e = ".jpeg") ∧ ¬(pr.2.mode = "RGB" ∨ pr.2.mode = "L")) := by
        rintro ⟨_, hno⟩
        exact hno (Or.inl hmode)
      unfold guarantee_rgb_for_jpeg
      rw [if_neg hno]
    refine ⟨hid, ?_⟩
    rw [hid]
    have hfmt : fmtFor e = "JPEG" := by
      rcases he with rfl | rfl <;> decide
    simp [save_image, hfmt, hmode]

/-- Witness for the hypotheses of `guarantee_rgb_for_jpeg_exactly`: a
CMYK image with a ".jpg" target gets converted, an RGB image with ".png"
is untouched, and the RGBA fixture's first variant encodes as
alpha-free RGB JPEG. -/
theorem guarantee_rgb_for_jpeg_exactly_witness :
    guarantee_rgb_for_jpeg ⟨"CMYK", (1, 1), .src 2⟩ ".jpg" =
      pilConvert ⟨"CMYK", (1, 1), .src 2⟩ "RGB" ∧
    guarantee_rgb_for_jpeg ⟨"RGB", (2, 3), .src 0⟩ ".png" = ⟨"RGB", (2, 3), .src 0⟩ ∧
    save_image
        (guarantee_rgb_for_jpeg
          ("flipHorizontal", pilMirror (convert_rgb ⟨"RGBA", (4, 5), .src 1⟩ whiteBG)).2
          ".jpg") ".jpg" =
      .encoded "JPEG" (some 95) true "RGB" (4, 5)
        (.mirrorLR (.pasted (.convertedTo "RGB" (.src 1)) (.channel "A" (.src 1))
          (.solid (255, 255, 255)))) :=
  ⟨((guarantee_rgb_for_jpeg_exactly ⟨"CMYK", (1, 1), .src 2⟩ ".jpg").1
      (Or.inl rfl) (by decide) (by decide)).1,
   (guarantee_rgb_for_jpeg_exactly ⟨"RGB", (2, 3), .src 0⟩ ".png").2.1 (by decide),
   by
     have hall := ((guarantee_rgb_for_jpeg_exactly ⟨"RGBA", (4, 5), .src 1⟩ ".jpg").2.2
        (Or.inl rfl)).2
     have hpr := hall
        ("flipHorizontal", pilMirror (convert_rgb ⟨"RGBA", (4, 5), .src 1⟩ whiteBG))
        (by decide)
     have hsave := (hpr.2 ".jpg" (Or.inl rfl)).2
     exact hsave.trans (by decide)⟩

/-- C6: `process_dataset` returns failure code 1 if and only if discovery
finds zero recognized images under the input root (after printing the
no-images diagnostic), and returns 0 otherwise; per-file errors (copy
failures, decode failures, write failures — all the failure-injection
flags except the uncaught `relative_to`/`mkdir` ones) never change the
return value from 0. -/
theorem process_dataset_status (input : List SrcFile) (c : Bool)
    (h : ∀ f ∈ imagesOf input, f.rel_fails = false ∧ f.mkdir_fails = false) :
    process_dataset input c = .ok (finalState input c, retCode input) ∧
    (retCode input = 1 ↔ imagesOf input = []) ∧
    (imagesOf input = [] →
      finalState input c = ⟨[.errLine noImagesMsg], 0, 0⟩) ∧
    (retCode input = 0 ∨ retCode input = 1) := by
  refine ⟨process_dataset_eq input c h, ?_, ?_, ?_⟩
  · unfold retCode
    constructor
    · intro h1
      by_cases he : (imagesOf input).isEmpty = true
      · exact List.isEmpty_iff.mp he
      · simp [he] at h1
    · intro h1
      simp [h1]
  · intro h1
    unfold finalState
    simp [h1]
  · unfold retCode
    by_cases he : (imagesOf input).isEmpty = true <;> simp [he]

/-- Witness for `process_dataset_status`: a one-image input returns code
0, an empty input returns code 1. -/
theorem process_dataset_status_witness :
    process_dataset [testPNG] true =
      .ok (finalState [testPNG] true, retCode [testPNG]) ∧
    retCode [testPNG] = 0 ∧
    process_dataset ([] : List SrcFile) true =
      .ok (finalState [] true, retCode []) ∧
    retCode ([] : List SrcFile) = 1 :=
  ⟨(process_dataset_status [testPNG] true (by decide)).1, by decide,
   (process_dataset_status [] true (by decide)).1, by decide⟩

/-- C7: in a run no uncaught exception aborts, every file write (original
copy and all variants of every accepted file at relative path R) targets
the destination directory `output_root / R.parent` (`destOf`), and the
trace creates that directory (recursive mkdir event) before any write
into it (`goodTrace`). -/
theorem outputs_mirrored_and_mkdir_first (input : List SrcFile) (c : Bool)
    (h : ∀ f ∈ imagesOf input, f.rel_fails = false ∧ f.mkdir_fails = false) :
    process_dataset input c = .ok (finalState input c, retCode input) ∧
    goodTrace [] (finalState input c).events = true ∧
    (∀ p b, Event.fwrite p b ∈ (finalState input c).events →
      ∃ f ∈ imagesOf input, p.dropLast = destOf f) := by
  refine ⟨process_dataset_eq input c h, ?_, ?_⟩
  · unfold finalState
    by_cases he : (imagesOf input).isEmpty = true
    · rw [if_pos he]
      rfl
    · rw [if_neg he]
      exact goodTrace_filesEvents c (imagesOf input) []
  · intro p b hm
    unfold finalState at hm
    by_cases he : (imagesOf input).isEmpty = true
    · rw [if_pos he] at hm
      simp at hm
    · rw [if_neg he] at hm
      simp only [filesEvents] at hm
      obtain ⟨l, hl, hev⟩ := List.mem_flatten.mp hm
      obtain ⟨f, hf, rfl⟩ := List.mem_map.mp hl
      refine ⟨f, hf, ?_⟩
      simp only [fileEvents, List.mem_cons] at hev
      rcases hev with hev | hev
      · simp at hev
      · rcases List.mem_append.mp hev with hev | hev
        · exact copyEvents_writes c f p b hev
        · exact augEvents_writes f p b hev

/-- Witness for `outputs_mirrored_and_mkdir_first` on the upper-case PNG
fixture. -/
theorem outputs_mirrored_and_mkdir_first_witness :
    process_dataset [testPNG] true =
      .ok (finalState [testPNG] true, retCode [testPNG]) ∧
    goodTrace [] (finalState [testPNG] true).events = true :=
  ⟨(outputs_mirrored_and_mkdir_first [testPNG] true (by decide)).1,
   (outputs_mirrored_and_mkdir_first [testPNG] true (by decide)).2.1⟩

/-- The absolute output tree of a run into output root `root`: every file
write, in order, with its absolute path; `none` if an uncaught exception
aborted the run. -/
def outputTree (root : List String) (input : List SrcFile) (c : Bool) :
    Option (List (List String × OutBytes)) :=
  match process_dataset input c with
  | .error _ => none
  | .ok (st, _) =>
      some (st.events.filterMap (fun e =>
        match e with
        | .fwrite p b => some (root ++ p, b)
        | _ => none))

/-- C8: determinism — running the pipeline twice on the same input tree
into two fresh output roots yields byte-identical output trees: after
stripping the respective roots, both runs produce the same relative
paths with the same byte content, in the same order (the imaging and
encode primitives are the fixed deterministic functions of the
embedding). -/
theorem two_runs_identical_trees (r1 r2 : List String)
    (input : List SrcFile) (c : Bool) :
    (outputTree r1 input c).map
        (fun l => l.map (fun pb => (pb.1.drop r1.length, pb.2))) =
      (outputTree r2 input c).map
        (fun l => l.map (fun pb => (pb.1.drop r2.length, pb.2))) := by
  unfold outputTree
  cases hpd : process_dataset input c with
  | error e => rfl
  | ok stc =>
      rcases stc with ⟨st, code⟩
      simp only [Option.map_some', List.map_filterMap]
      congr 2
      funext e
      cases e <;> simp [List.drop_left]

theorem isAugWrite_wEv (s e : String) (d : List String) (pr : String × PImage) :
    isAugWrite (wEv s e d pr) = true := by
  unfold wEv save_image isAugWrite
  by_cases h : fmtFor e = "JPEG" <;> simp [h]

/-- `filter isAugWrite` ignores the mkdir and copy-step events of one
file's block, leaving the augmentation block's writes. -/
theorem fileEvents_filter_eq_aug (c : Bool) (f : SrcFile) :
    (fileEvents c f).filter isAugWrite = (augEvents f).filter isAugWrite := by
  have hmk : isAugWrite (Event.mkdirp (destOf f)) = false := rfl
  have hcopy : (copyEvents c f).filter isAugWrite = [] := by
    unfold copyEvents
    cases c with
    | false => rfl
    | true =>
        cases hc : f.copy_fails with
        | true => simp [isAugWrite]
        | false => simp [isAugWrite]
  unfold fileEvents
  rw [List.filter_cons, hmk]
  simp only [Bool.false_eq_true, if_false, List.filter_append, hcopy,
    List.nil_append]

/-- The only events `filter isAugWrite` keeps from a decoded file's block
are its successful variant writes. -/
theorem fileEvents_filter_some (c : Bool) (f : SrcFile) (im : PImage)
    (hd : f.decoded = some im) :
    (fileEvents c f).filter isAugWrite = (augResult f im).1 := by
  rw [fileEvents_filter_eq_aug]
  have herr : ∀ m, isAugWrite (Event.errLine m) = false := fun m => rfl
  unfold augEvents
  rw [hd]
  obtain ⟨n, hn, he, hcnt⟩ := augResult_shape f im
  simp only [List.filter_append]
  rw [he]
  have hall : List.filter isAugWrite
      (((augmentations (convert_rgb im whiteBG)).map
        (wEv (pyStem (fname f)) (extOf f) (destOf f))).take n) =
      ((augmentations (convert_rgb im whiteBG)).map
        (wEv (pyStem (fname f)) (extOf f) (destOf f))).take n := by
    refine List.filter_eq_self.mpr (fun ev hm => ?_)
    obtain ⟨pr, _, rfl⟩ := List.mem_map.mp (List.mem_of_mem_take hm)
    exact isAugWrite_wEv _ _ _ pr
  rw [hall, ← he]
  rcases hok : (augResult f im).2.2 <;> simp [herr]

theorem fileEvents_filter_none (c : Bool) (f : SrcFile)
    (hd : f.decoded = none) :
    (fileEvents c f).filter isAugWrite = [] := by
  rw [fileEvents_filter_eq_aug]
  unfold augEvents
  rw [hd]
  simp [isAugWrite]

theorem fileEvents_filter_length (c : Bool) (f : SrcFile) :
    ((fileEvents c f).filter isAugWrite).length = fileAugCount f := by
  cases hd : f.decoded with
  | none =>
      rw [fileEvents_filter_none c f hd]
      simp [fileAugCount, hd]
  | some im =>
      rw [fileEvents_filter_some c f im hd]
      obtain ⟨n, hn, he, hcnt⟩ := augResult_shape f im
      simp only [fileAugCount, hd]
      rw [he, hcnt, List.length_take, List.length_map]
      have h8 : (augmentations (convert_rgb im whiteBG)).length = 8 := rfl
      rw [h8]
      omega

theorem filesAug_eq_filter_length (c : Bool) (fs : List SrcFile) :
    filesAug fs = ((filesEvents c fs).filter isAugWrite).length := by
  induction fs with
  | nil => rfl
  | cons f fs ih =>
      have hsplit : filesEvents c (f :: fs) = fileEvents c f ++ filesEvents c fs := by
        simp [filesEvents]
      rw [hsplit, List.filter_append, List.length_append, ← ih,
        fileEvents_filter_length]
      simp [filesAug]

/-- C10: no per-file atomicity — the `augmented` counter is incremented
exactly once per variant file successfully written: the reported count
equals the number of variant-write events in the whole run's trace; and
when a file's processing fails after k of its 8 variant writes, exactly
those first k writes remain in the trace (no rollback) and the counter
retains exactly k for that file. -/
theorem augmented_counter_no_rollback (input : List SrcFile) (c : Bool)
    (h : ∀ f ∈ imagesOf input, f.rel_fails = false ∧ f.mkdir_fails = false) :
    process_dataset input c = .ok (finalState input c, retCode input) ∧
    (finalState input c).num_augmented =
      ((finalState input c).events.filter isAugWrite).length ∧
    (∀ f im k, f.decoded = some im → f.write_fails_at = some k → k < 8 →
      fileAugCount f = k ∧
      (fileEvents c f).filter isAugWrite =
        ((augmentations (convert_rgb im whiteBG)).map
          (wEv (pyStem (fname f)) (extOf f) (destOf f))).take k) := by
  refine ⟨process_dataset_eq input c h, ?_, ?_⟩
  · unfold finalState
    by_cases he : (imagesOf input).isEmpty = true
    · rw [if_pos he]
      rfl
    · rw [if_neg he]
      exact filesAug_eq_filter_length c (imagesOf input)
  · intro f im k hd hw hk
    have hk8 : k < (augmentations (convert_rgb im whiteBG)).length := by
      simpa [augmentations] using hk
    have hh := writeAugs_hit (pyStem (fname f)) (extOf f) (destOf f)
      (augmentations (convert_rgb im whiteBG)) 0 k hk8
    rw [Nat.zero_add] at hh
    have hres : augResult f im =
        (((augmentations (convert_rgb im whiteBG)).map
          (wEv (pyStem (fname f)) (extOf f) (destOf f))).take k, k, false) := by
      unfold augResult
      rw [hw, hh]
    constructor
    · simp only [fileAugCount, hd]
      rw [hres]
    · rw [fileEvents_filter_some c f im hd, hres]

/-- Witness for `augmented_counter_no_rollback` on a file whose fourth
variant write raises: exactly 3 writes remain and the counter holds 3. -/
theorem augmented_counter_no_rollback_witness :
    process_dataset [testWriteFail3] true =
      .ok (finalState [testWriteFail3] true, retCode [testWriteFail3]) ∧
    (finalState [testWriteFail3] true).num_augmented =
      (((finalState [testWriteFail3] true).events).filter isAugWrite).length ∧
    fileAugCount testWriteFail3 = 3 :=
  ⟨(augmented_counter_no_rollback [testWriteFail3] true (by decide)).1,
   (augmented_counter_no_rollback [testWriteFail3] true (by decide)).2.1,
   ((augmented_counter_no_rollback [testWriteFail3] true (by decide)).2.2
     testWriteFail3 ⟨"RGB", (2, 2), .src 3⟩ 3 rfl rfl (by decide)).1⟩

/-- C3: per-file failure isolation.  (1) a copy failure is recorded as a
diagnostic, does not change the originals counter, does not skip the
file's augmentation block, and does not abort the run; (2) a decode
failure only records a diagnostic and writes no variants; (3) a failure
at the k-th variant write keeps exactly the first k variant writes,
records a diagnostic, and skips the remaining variants; (4) a file whose
`process_file` returns normally lets the run continue with the next
discovered file; (5) with `relative_to`/`mkdir` succeeding, `process_file`
always returns normally, whatever the per-file failures. -/
theorem per_file_failure_isolation :
    (∀ f st, f.rel_fails = false → f.mkdir_fails = false → f.copy_fails = true →
      process_file true f st =
        .ok ⟨st.events ++
              Event.mkdirp (destOf f) :: Event.errLine (copyErrMsg f) :: augEvents f,
            st.num_originals, st.num_augmented + fileAugCount f⟩) ∧
    (∀ f, f.decoded = none →
      augEvents f = [Event.errLine (skipMsg f)] ∧ fileAugCount f = 0) ∧
    (∀ f im k, f.decoded = some im → f.write_fails_at = some k → k < 8 →
      augEvents f =
        ((augmentations (convert_rgb im whiteBG)).map
          (wEv (pyStem (fname f)) (extOf f) (destOf f))).take k ++
          [Event.errLine (skipMsg f)] ∧
      fileAugCount f = k) ∧
    (∀ c f fs st st', process_file c f st = Except.ok st' →
      runFiles c (f :: fs) st = runFiles c fs st') ∧
    (∀ c f st, f.rel_fails = false → f.mkdir_fails = false →
      ∃ st', process_file c f st = Except.ok st') := by
  refine ⟨?_, ?_, ?_, ?_, ?_⟩
  · intro f st h1 h2 h3
    rw [process_file_eq true f st h1 h2]
    simp [fileEvents, copyEvents, fileOrigCount, h3]
  · intro f h
    constructor
    · simp only [augEvents, h]
    · simp only [fileAugCount, h]
  · intro f im k hd hw hk
    have hk8 : k < (augmentations (convert_rgb im whiteBG)).length := by
      simpa [augmentations] using hk
    have hh := writeAugs_hit (pyStem (fname f)) (extOf f) (destOf f)
      (augmentations (convert_rgb im whiteBG)) 0 k hk8
    rw [Nat.zero_add] at hh
    have hres : augResult f im =
        (((augmentations (convert_rgb im whiteBG)).map
          (wEv (pyStem (fname f)) (extOf f) (destOf f))).take k, k, false) := by
      unfold augResult
      rw [hw, hh]
    constructor
    · simp only [augEvents, hd]
      rw [hres]
      simp
    · simp only [fileAugCount, hd]
      rw [hres]
  · intro c f fs st st' hok
    simp [runFiles, hok]
  · intro c f st h1 h2
    exact ⟨_, process_file_eq c f st h1 h2⟩

/-- Witness for `per_file_failure_isolation`: the copy-failure fixture
still augments and stays on the success path; the corrupt fixture yields
one diagnostic and no variants; the write-failure fixture keeps its first
3 writes; a normally-returning file continues the run. -/
theorem per_file_failure_isolation_witness :
    process_file true testCopyFail ⟨[], 0, 0⟩ =
      .ok ⟨[] ++ Event.mkdirp (destOf testCopyFail) ::
              Event.errLine (copyErrMsg testCopyFail) :: augEvents testCopyFail,
           0, 0 + fileAugCount testCopyFail⟩ ∧
    augEvents testBadDecode = [Event.errLine (skipMsg testBadDecode)] ∧
    (augEvents testWriteFail3 =
      ((augmentations (convert_rgb ⟨"RGB", (2, 2), .src 3⟩ whiteBG)).map
        (wEv (pyStem (fname testWriteFail3)) (extOf testWriteFail3)
          (destOf testWriteFail3))).take 3 ++
        [Event.errLine (skipMsg testWriteFail3)] ∧
      fileAugCount testWriteFail3 = 3) ∧
    (∃ st', process_file true testBadDecode ⟨[], 0, 0⟩ = Except.ok st') :=
  ⟨(per_file_failure_isolation.1 testCopyFail ⟨[], 0, 0⟩ rfl rfl rfl),
   (per_file_failure_isolation.2.1 testBadDecode rfl).1,
   (per_file_failure_isolation.2.2.1 testWriteFail3 ⟨"RGB", (2, 2), .src 3⟩ 3
     rfl rfl (by decide)),
   (per_file_failure_isolation.2.2.2.2 true testBadDecode ⟨[], 0, 0⟩ rfl rfl)⟩

/-- C9: the per-file failure boundary does not cover destination-directory
preparation — an exception in `relative_to` or in `mkdir` for any
discovered file is caught by no handler and aborts the whole run as an
uncaught error (unlike copy/decode/write failures, cf. C3); and the
destination directory is created unconditionally for every discovered
file, even with copying disabled and every augmentation failing. -/
theorem dest_dir_outside_failure_boundary :
    (∀ input c pre f post,
      imagesOf input = pre ++ f :: post →
      (∀ g ∈ pre, g.rel_fails = false ∧ g.mkdir_fails = false) →
      f.rel_fails = false → f.mkdir_fails = true →
      process_dataset input c = .error ("mkdir raised for " ++ fname f)) ∧
    (∀ input c pre f post,
      imagesOf input = pre ++ f :: post →
      (∀ g ∈ pre, g.rel_fails = false ∧ g.mkdir_fails = false) →
      f.rel_fails = true →
      process_dataset input c = .error ("relative_to raised for " ++ fname f)) ∧
    (∀ f st, f.rel_fails = false → f.mkdir_fails = false → f.decoded = none →
      process_file false f st =
        .ok ⟨st.events ++ [Event.mkdirp (destOf f), Event.errLine (skipMsg f)],
             st.num_originals, st.num_augmented⟩) := by
  refine ⟨?_, ?_, ?_⟩
  · intro input c pre f post himg hpre hrel hmk
    simp only [imagesOf] at himg
    unfold process_dataset
    rw [himg]
    have hne : (pre ++ f :: post).isEmpty = false := by simp
    simp only [hne, Bool.false_eq_true, if_false]
    rw [runFiles_append, runFiles_eq c pre _ hpre]
    have hpf : ∀ st, process_file c f st =
        Except.error ("mkdir raised for " ++ fname f) := by
      intro st
      unfold process_file
      rw [hrel, hmk]
      rfl
    simp only [runFiles, hpf]
  · intro input c pre f post himg hpre hrel
    simp only [imagesOf] at himg
    unfold process_dataset
    rw [himg]
    have hne : (pre ++ f :: post).isEmpty = false := by simp
    simp only [hne, Bool.false_eq_true, if_false]
    rw [runFiles_append, runFiles_eq c pre _ hpre]
    have hpf : ∀ st, process_file c f st =
        Except.error ("relative_to raised for " ++ fname f) := by
      intro st
      unfold process_file
      rw [hrel]
      rfl
    simp only [runFiles, hpf]
  · intro f st h1 h2 h3
    rw [process_file_eq false f st h1 h2]
    simp [fileEvents, copyEvents, fileOrigCount, fileAugCount, augEvents, h3]

/-- Witness for `dest_dir_outside_failure_boundary`: a mkdir failure and
a relative_to failure each abort the whole run; with copying disabled and
decoding failing, the mkdir event still happens. -/
theorem dest_dir_outside_failure_boundary_witness :
    process_dataset [testMkdirFail] true =
      .error ("mkdir raised for " ++ fname testMkdirFail) ∧
    process_dataset [testRelFail] true =
      .error ("relative_to raised for " ++ fname testRelFail) ∧
    process_file false testBadDecode ⟨[], 0, 0⟩ =
      .ok ⟨[] ++ [Event.mkdirp (destOf testBadDecode),
                  Event.errLine (skipMsg testBadDecode)], 0, 0⟩ :=
  ⟨dest_dir_outside_failure_boundary.1 [testMkdirFail] true [] testMkdirFail []
     (by decide) (by decide) rfl rfl,
   dest_dir_outside_failure_boundary.2.1 [testRelFail] true [] testRelFail []
     (by decide) (by decide) rfl,
   dest_dir_outside_failure_boundary.2.2 testBadDecode ⟨[], 0, 0⟩ rfl rfl rfl⟩

/-- `save_image` always encodes in the format the table assigns to the
target extension. -/
theorem save_image_encodes (img : PImage) (ext : String) :
    ∃ q o m sz d2,
      save_image img ext = OutBytes.encoded (fmtFor ext) q o m sz d2 := by
  by_cases hJ : fmtFor ext = "JPEG"
  · exact ⟨some 95, true, img.mode, img.size, img.data, by simp [save_image, hJ]⟩
  · exact ⟨none, false, img.mode, img.size, img.data, by simp [save_image, hJ]⟩

/-- C2 counterexample: the classifier accepts `photos/a.PNG`, whose
original extension is ".PNG", but the run writes its variants with the
lower-cased extension ".png" (`a__flipHorizontal.png`), so the output
extension does not equal the source's original extension. -/
theorem output_extension_not_original_counterexample :
    true_image testPNG = true ∧
    fname testPNG = "a.PNG" ∧
    pySuffix "a.PNG" = ".PNG" ∧
    Event.fwrite ["photos", "a__flipHorizontal.png"]
        (OutBytes.encoded "PNG" none false "RGB" (2, 3) (.mirrorLR (.src 0))) ∈
      runEvents [testPNG] true ∧
    pySuffix "a__flipHorizontal.png" = ".png" ∧
    (".png" : String) ≠ ".PNG" := by
  decide

/-- C2 (amended): for every accepted source file, every variant output
file's extension equals the lower-cased source extension (equal to the
original extension only up to case), and no format conversion is ever
performed: every variant is encoded in the format the classifier table
assigns to that lower-cased extension, which is the same format the
table assigns to the source's original extension. -/
theorem variant_extension_lowercased (f : SrcFile)
    (him : true_image f = true) (im : PImage) (hd : f.decoded = some im) :
    extOf f = asciiLower (pySuffix (fname f)) ∧
    extOf f ∈ recognize_formats ∧
    fmtFor (pySuffix (fname f)) = fmtFor (extOf f) ∧
    ∀ p b, Event.fwrite p b ∈ augEvents f →
      ∃ tag, tag ∈ ["flipHorizontal", "flipVertical", "rotate90degrees",
          "rotate270", "bright125", "contrast125", "sharp150", "blur"] ∧
        p = destOf f ++ [pyStem (fname f) ++ "__" ++ tag ++ extOf f] ∧
        pySuffix (pyStem (fname f) ++ "__" ++ tag ++ extOf f) = extOf f ∧
        (∃ q o m sz d2, b = OutBytes.encoded (fmtFor (extOf f)) q o m sz d2) := by
  have hext : extOf f ∈ recognize_formats := by
    have h2 := (Bool.and_eq_true _ _).mp him
    exact of_decide_eq_true h2.2
  have hext' : extOf f = ".bmp" ∨ extOf f = ".jpeg" ∨ extOf f = ".jpg" ∨
      extOf f = ".png" ∨ extOf f = ".tif" ∨ extOf f = ".tiff" ∨
      extOf f = ".webp" := by
    simpa [recognize_formats] using hext
  have h1' : asciiLower (pySuffix (fname f)) = extOf f := rfl
  refine ⟨rfl, hext, ?_, ?_⟩
  · rcases hext' with h1 | h1 | h1 | h1 | h1 | h1 | h1 <;>
      simp only [fmtFor] <;> rw [h1'.trans h1, h1] <;> decide
  · intro p b hm
    unfold augEvents at hm
    rw [hd] at hm
    simp only [List.mem_append] at hm
    rcases hm with hm | hm
    · obtain ⟨n, hn, he, hcnt⟩ := augResult_shape f im
      rw [he] at hm
      obtain ⟨pr, hpr, hev⟩ := List.mem_map.mp (List.mem_of_mem_take hm)
      obtain ⟨tag, aug⟩ := pr
      simp only [wEv] at hev
      injection hev with hp hb
      subst hp
      subst hb
      simp only [augmentations, List.mem_cons, Prod.mk.injEq,
        List.not_mem_nil, or_false] at hpr
      rcases hpr with ⟨hT, hA⟩ | ⟨hT, hA⟩ | ⟨hT, hA⟩ | ⟨hT, hA⟩ |
        ⟨hT, hA⟩ | ⟨hT, hA⟩ | ⟨hT, hA⟩ | ⟨hT, hA⟩ <;>
        subst hT <;> subst hA <;>
        refine ⟨_, ?_, rfl, ?_, ?_⟩ <;>
        first
        | decide
        | (rcases hext' with h1 | h1 | h1 | h1 | h1 | h1 | h1 <;> rw [h1] <;>
            exact (pySuffix_variant _ _ _ (by decide)).trans (by decide))
        | exact save_image_encodes _ _
    · rcases h2 : (augResult f im).2.2 <;> simp [h2] at hm

/-- Witness for `variant_extension_lowercased` on the upper-case PNG
fixture: the lower-cased extension facts and the shape of its first
variant write. -/
theorem variant_extension_lowercased_witness :
    extOf testPNG = asciiLower (pySuffix (fname testPNG)) ∧
    extOf testPNG ∈ recognize_formats ∧
    fmtFor (pySuffix (fname testPNG)) = fmtFor (extOf testPNG) ∧
    (∃ tag, tag ∈ ["flipHorizontal", "flipVertical", "rotate90degrees",
        "rotate270", "bright125", "contrast125", "sharp150", "blur"] ∧
      ["photos", "a__flipHorizontal.png"] =
        destOf testPNG ++
          [pyStem (fname testPNG) ++ "__" ++ tag ++ extOf testPNG] ∧
      pySuffix (pyStem (fname testPNG) ++ "__" ++ tag ++ extOf testPNG) =
        extOf testPNG ∧
      (∃ q o m sz d2,
        OutBytes.encoded "PNG" none false "RGB" (2, 3) (.mirrorLR (.src 0)) =
          OutBytes.encoded (fmtFor (extOf testPNG)) q o m sz d2)) :=
  ⟨(variant_extension_lowercased testPNG (by decide) ⟨"RGB", (2, 3), .src 0⟩ rfl).1,
   (variant_extension_lowercased testPNG (by decide) ⟨"RGB", (2, 3), .src 0⟩ rfl).2.1,
   (variant_extension_lowercased testPNG (by decide) ⟨"RGB", (2, 3), .src 0⟩ rfl).2.2.1,
   (variant_extension_lowercased testPNG (by decide) ⟨"RGB", (2, 3), .src 0⟩ rfl).2.2.2
     ["photos", "a__flipHorizontal.png"]
     (OutBytes.encoded "PNG" none false "RGB" (2, 3) (.mirrorLR (.src 0)))
     (by decide)⟩

end AugmentDS
